import Mathlib

/-!
Verification of the ChessBot/Thera chess move generator sources against
their specification.  The C++ sources are shallowly embedded: machine
integers become `Nat`/`Int` with explicit `% 2^64` where wrap-around
matters, `std::array`/`std::vector` become `List`, and debug-build
exceptions become `Except`.
-/

namespace ChessBot

/-! ## Bitboard primitives (src/Thera/include/Thera/Bitboard.hpp)

The `Bitboard` template stores its occupancy in an unsigned integer
`bits`.  We embed the 64-bit payload as a `Nat` together with the two
hot primitives the generator relies on: `bitScanForward` (Matt Taylor
folded bit scan, lines 276-292) and the `getPieces` iteration pattern
(lines 181-198): while non-empty, take the lowest set bit, emit it and
clear it with `x &= x-1`. -/

/-- The constant `lsb_64_table` from `Bitboard::bitScanForward`. -/
def lsb64Table : List Nat :=
  [63, 30,  3, 32, 59, 14, 11, 33,
   60, 24, 50,  9, 55, 19, 21, 34,
   61, 29,  2, 53, 51, 23, 41, 18,
   56, 28,  1, 43, 46, 27,  0, 35,
   62, 31, 58,  4,  5, 49, 54,  6,
   15, 52, 12, 40,  7, 42, 45, 16,
   25, 57, 48, 13, 10, 39,  8, 44,
   20, 47, 38, 22, 17, 37, 36, 26]

/-- The table lookup part of `bitScanForward`, applied to the mask
`bb ^ (bb - 1)`.  `folded = (uint32_t) bb ^ (bb >> 32)` is a 32-bit
value; the multiplication is 32-bit (wraps at `2^32`) and the shift by
26 leaves a 6-bit index. -/
def bsfOfMask (x : Nat) : Nat :=
  let folded := ((x % 2 ^ 32) ^^^ (x >>> 32)) % 2 ^ 32
  lsb64Table.getD (((folded * 0x78291ACF) % 2 ^ 32) >>> 26) 0

/-- `Bitboard::bitScanForward` (Bitboard.hpp lines 276-292): the input
is first turned into the mask of its trailing zeros and lowest set bit
via `bb ^= bb - 1`, then folded and looked up.  The precondition in the
source is `bb != 0`. -/
def bitScanForward (bb : Nat) : Nat :=
  bsfOfMask (bb ^^^ (bb - 1))

/-- The `getPieces` loop with an explicit iteration bound: clearing the
lowest set bit with `x &= x-1` strictly decreases `x`, so a bound of
`x` iterations never cuts the loop short. -/
def getPiecesAux : Nat → Nat → List Nat
  | 0, _ => []
  | fuel + 1, x =>
    if x = 0 then []
    else bitScanForward (x % 2 ^ 64) :: getPiecesAux fuel (x &&& (x - 1))

/-- `Bitboard::getPieces` (Bitboard.hpp lines 181-198): repeatedly take
`bitScanForward` of the remaining bits (the source truncates the
128-bit `bits` field to the 64-bit argument type) and clear the lowest
set bit with `x &= x-1`, collecting the square indices in emission
order. -/
def getPiecesList (x : Nat) : List Nat := getPiecesAux x x

/-- Index of the least significant set bit, by repeated halving.  This
is the mathematical reference value for `bitScanForward`. -/
def ctz (n : Nat) : Nat :=
  if h : n = 0 then 0
  else if n % 2 = 1 then 0
  else ctz (n / 2) + 1
termination_by n
decreasing_by
  exact Nat.div_lt_self (Nat.pos_of_ne_zero h) Nat.one_lt_two

/-! ## The obstructed-squares lookup table
(src/Thera/include/Thera/MoveGenerator.hpp lines 212-240)

`obstructedLUT` is a 64 x 64 constexpr array whose entry `[a][b]` is
computed by the `singleEvaluation` lambda, a pure-calculation formula
from the chess programming wiki operating on 64-bit wrapping
arithmetic.  `Bitboard` values there wrap around a `uint64_t`; signed
intermediate results (`file`, `rank`) are computed in `int` and then
converted to the unsigned 64-bit domain, which is `% 2^64` on the
two's-complement value.  `>> 3` on the signed `int` is an arithmetic
shift, i.e. flooring division by 8. -/

/-- Wrapping `uint64_t` subtraction. -/
def wsub (a b : Nat) : Nat := (a + 2 ^ 64 - b % 2 ^ 64) % 2 ^ 64

/-- The `singleEvaluation` lambda inside the `obstructedLUT`
initializer (MoveGenerator.hpp lines 214-230). -/
def singleEvaluation (sq1 sq2 : Nat) : Nat :=
  let m1   : Nat := 0xFFFFFFFFFFFFFFFF
  let a2a7 : Nat := 0x0001010101010100
  let b2g7 : Nat := 0x0040201008040200
  let h1b7 : Nat := 0x0002040810204080
  let btwn := ((m1 <<< sq1) % 2 ^ 64) ^^^ ((m1 <<< sq2) % 2 ^ 64)
  let fileI : Int := ((sq2 &&& 7 : Nat) : Int) - ((sq1 &&& 7 : Nat) : Int)
  let file : Nat := (fileI % ((2 ^ 64 : Nat) : Int)).toNat
  let rankI : Int := Int.fdiv (((sq2 ||| 7 : Nat) : Int) - (sq1 : Int)) 8
  let rank : Nat := (rankI % ((2 ^ 64 : Nat) : Int)).toNat
  let line1 := (wsub (file &&& 7) 1) &&& a2a7
  let line2 := (2 * ((wsub (rank &&& 7) 1) >>> 58)) % 2 ^ 64
  let line3 := (wsub ((wsub rank file) &&& 15) 1) &&& b2g7
  let line4 := (wsub (((rank + file) % 2 ^ 64) &&& 15) 1) &&& h1b7
  let line := (line1 + line2 + line3 + line4) % 2 ^ 64
  let lsb := btwn &&& (wsub 0 btwn)
  ((line * lsb) % 2 ^ 64) &&& btwn

/-- `MoveGenerator::obstructedLUT`: the table is filled with
`singleEvaluation a b` for all square pairs. -/
def obstructedLUT (a b : Nat) : Nat := singleEvaluation a b

/-- Accumulate the squares reached from `pos` walking in steps of
`step` while strictly below `hi` (at most 7 steps fit on a board
line). -/
def walkAux (step hi : Nat) : Nat → Nat → Nat
  | _, 0 => 0
  | pos, fuel + 1 => if pos < hi then (1 <<< pos) + walkAux step hi (pos + step) fuel else 0

/-- The bitboard of the squares strictly between squares `a` and `b`
(square index `8*rank + file`): when the two squares share a rank, a
file, a diagonal or an anti-diagonal, these are the squares reached by
single steps (offset 1, 8, 9 or 7 respectively) from the smaller
square, stopping before the larger square; otherwise there are none. -/
def squaresBetween (a b : Nat) : Nat :=
  let lo := min a b
  let hi := max a b
  if a == b then 0
  else if a / 8 == b / 8 then walkAux 1 hi (lo + 1) 8
  else if a % 8 == b % 8 then walkAux 8 hi (lo + 8) 8
  else if a / 8 + b % 8 == b / 8 + a % 8 then walkAux 9 hi (lo + 9) 8
  else if a / 8 + a % 8 == b / 8 + b % 8 then walkAux 7 hi (lo + 7) 8
  else 0

/-! ## Pieces, coordinates and moves

`Piece` is a (type, color) pair (spec section 3); the mailbox holds an
`OffBoard` sentinel on guard squares, distinct from `None`.  The
ChessBot-era `Piece.hpp` and coordinate utilities are not under `src/`,
so the data layout follows the spec: a compact 0..63 index
`file + 8*rank-row` and a padded 10x12 index with two guard rows top
and bottom and one guard column each side.  Integer conversions use
C++ `int` semantics (truncating division). -/

inductive PieceType
  | none
  | pawn
  | bishop
  | knight
  | rook
  | queen
  | king
  | offBoard
deriving DecidableEq, Repr

inductive PieceColor
  | white
  | black
deriving DecidableEq, Repr

/-- `PieceColor::opposite`, total on colors. -/
def PieceColor.opposite : PieceColor → PieceColor
  | .white => .black
  | .black => .white

structure Piece where
  type : PieceType
  color : PieceColor
deriving DecidableEq, Repr

/-- Modelled from the spec: conversion from the compact 0..63 index to
the padded 10x12 mailbox index (`Board::to10x12Coords`). -/
def to10x12 (sq : Int) : Int := (Int.tdiv sq 8 + 2) * 10 + Int.tmod sq 8 + 1

/-- Modelled from the spec: conversion from the padded 10x12 index back
to the compact index (`Board::to8x8Coords`). -/
def to8x8 (p : Int) : Int := (Int.tdiv p 10 - 2) * 8 + Int.tmod p 10 - 1

/-- Modelled from the spec: `Board::applyOffset` adds a padded-index
direction offset to a compact square and returns the compact result. -/
def applyOffset (sq d : Int) : Int := to8x8 (to10x12 sq + d)

/-- A padded index lies on the playing area: rows 2..9, columns 1..8. -/
def isOnBoard10x12 (p : Int) : Bool :=
  decide (20 ≤ p) && decide (p ≤ 99) && decide (1 ≤ Int.tmod p 10) && decide (Int.tmod p 10 ≤ 8)

/-- Modelled from the spec: `Board::isOnBoard8x8(square, offset)` -
off-board detection by a single check after the padded offset
addition. -/
def isOnBoard8x8 (sq d : Int) : Bool := isOnBoard10x12 (to10x12 sq + d)

/-- The rook half of a castling move (`Move::auxiliaryMove`, owned by
its containing move). -/
structure AuxMove where
  startIndex : Int
  endIndex : Int
deriving DecidableEq, Repr

/-- `Move` (spec section 3): coordinates are padded 10x12 indices, as
produced by `Board::to10x12Coords` in the generator. -/
structure Move where
  startIndex : Int := -1
  endIndex : Int := -1
  promotionType : PieceType := .none
  isCastling : Bool := false
  isEnPassant : Bool := false
  isDoublePawnMove : Bool := false
  enPassantFile : Int := -1
  auxiliaryMove : Option AuxMove := Option.none
deriving DecidableEq, Repr

/-- A two-argument `Move` construction (`emplace_back(start, end)`). -/
def mkMove (a b : Int) : Move := { startIndex := to10x12 a, endIndex := to10x12 b }

/-! ## Board state (src/Thera/include/Thera/Board.hpp lines 256-271)

`BoardState` holds the 120-entry mailbox, one bitboard per piece, the
union bitboard, the side to move, four castling-rights flags and the
two en-passant fields.  `Board` adds the LIFO rewind stack. -/

structure BoardState where
  squares : List Piece
  pieceBitboards : Piece → Nat
  allPieceBitboard : Nat
  colorToMove : PieceColor
  canCastleLeft : PieceColor → Bool
  canCastleRight : PieceColor → Bool
  enPassantSquare : Int
  enPassantSquareToCapture : Int

structure Board where
  currentState : BoardState
  rewindStack : List BoardState

def offBoardPiece : Piece := ⟨.offBoard, .white⟩

/-- `Board::at10x12`: mailbox access by padded index. -/
def at10x12 (s : BoardState) (p : Int) : Piece :=
  if decide (0 ≤ p) && decide (p < 120) then s.squares.getD p.toNat offBoardPiece
  else offBoardPiece

/-- `Board::at`: mailbox access by compact index. -/
def at8 (s : BoardState) (sq : Int) : Piece := at10x12 s (to10x12 sq)

/-- Modelled from the spec: `Board::isOccupied` - a piece (the
off-board sentinel included) sits on the padded square. -/
def isOccupied (s : BoardState) (p : Int) : Bool := !((at10x12 s p).type == PieceType.none)

/-- `Board::isFriendly`: the piece color equals the side to move; the
source documents that it does not test occupancy. -/
def isFriendly (s : BoardState) (p : Int) : Bool := (at10x12 s p).color == s.colorToMove

/-! ## The move generator (src/ChessBot/src/MoveGenerator.cpp)

The direction constants follow the spec and the Thera header
(MoveGenerator.hpp lines 105-147): padded-index deltas in the order
N, W, E, S, NW, NE, SW, SE; the first four are the rook directions,
the last four the bishop directions.  Knight offsets are the eight
compound compass sums. -/

def slidingPieceOffsets : List Int := [-10, -1, 1, 10, -11, -9, 9, 11]

/-- King offsets (indices 0-7) followed by knight offsets (indices
8-15), as used by `generateKingKnightMoves`. -/
def kingKnightOffsets : List Int :=
  [-10, -1, 1, 10, -11, -9, 9, 11, -19, -21, -12, 8, 21, 19, -8, 12]

/-- The `while` walk of `MoveGenerator::generateSlidingMoves` (lines
43-57): advance while the offset stays on board; emit on an empty
square and continue; emit once and stop on an enemy piece; stop
silently on a friendly piece.  A ray holds at most 7 squares, so fuel 8
always suffices. -/
def slideLoop (s : BoardState) (startSq d : Int) : Nat → Int → List Move
  | 0, _ => []
  | fuel + 1, pos =>
    if isOnBoard8x8 pos d then
      let pos2 := applyOffset pos d
      if (at8 s pos2).type == PieceType.none then
        mkMove startSq pos2 :: slideLoop s startSq d fuel pos2
      else if (at8 s pos2).color == s.colorToMove.opposite then
        [mkMove startSq pos2]
      else []
    else []

/-- `MoveGenerator::generateSlidingMoves` (lines 29-59): rooks walk
directions 0-3, bishops 4-7, queens 0-7; other piece types and pieces
of the wrong color generate nothing. -/
def generateSlidingMoves (s : BoardState) (sq : Int) : List Move :=
  if (at8 s sq).color == s.colorToMove then
    if (at8 s sq).type == PieceType.rook then
      (slidingPieceOffsets.take 4).flatMap (fun d => slideLoop s sq d 8 sq)
    else if (at8 s sq).type == PieceType.bishop then
      (slidingPieceOffsets.drop 4).flatMap (fun d => slideLoop s sq d 8 sq)
    else if (at8 s sq).type == PieceType.queen then
      slidingPieceOffsets.flatMap (fun d => slideLoop s sq d 8 sq)
    else []
  else []

/-- `MoveGenerator::generateAllSlidingMoves` (lines 61-64): all 64
squares in ascending order. -/
def generateAllSlidingMoves (s : BoardState) : List Move :=
  (List.range 64).flatMap (fun n => generateSlidingMoves s (Int.ofNat n))

/-- One step of the king/knight offset loop (lines 75-90). -/
def kkStep (s : BoardState) (sq d : Int) : List Move :=
  if isOnBoard8x8 sq d then
    let pos2 := applyOffset sq d
    if (at8 s pos2).type == PieceType.none then [mkMove sq pos2]
    else if (at8 s pos2).color == s.colorToMove.opposite then [mkMove sq pos2]
    else []
  else []

/-- The castling block of `generateKingKnightMoves` (lines 91-118):
king-side needs the castle-right flag and two empty squares to the
right; queen-side needs the castle-left flag and three empty squares to
the left.  The auxiliary move carries the rook relocation. -/
def castlingMoves (s : BoardState) (sq : Int) : List Move :=
  (if s.canCastleRight (at8 s sq).color &&
      ((at8 s (applyOffset sq 1)).type == PieceType.none) &&
      ((at8 s (applyOffset sq 2)).type == PieceType.none) then
    [{ startIndex := to10x12 sq, endIndex := to10x12 (applyOffset sq 2), isCastling := true,
       auxiliaryMove := some ⟨to10x12 (applyOffset sq 3), to10x12 (applyOffset sq 1)⟩ }]
  else []) ++
  (if s.canCastleLeft (at8 s sq).color &&
      ((at8 s (applyOffset sq (-1))).type == PieceType.none) &&
      ((at8 s (applyOffset sq (-2))).type == PieceType.none) &&
      ((at8 s (applyOffset sq (-3))).type == PieceType.none) then
    [{ startIndex := to10x12 sq, endIndex := to10x12 (applyOffset sq (-2)), isCastling := true,
       auxiliaryMove := some ⟨to10x12 (applyOffset sq (-4)), to10x12 (applyOffset sq (-1))⟩ }]
  else [])

/-- `MoveGenerator::generateKingKnightMoves` (lines 66-119): kings use
offsets 0-7 plus the castling block, knights use offsets 8-15. -/
def generateKingKnightMoves (s : BoardState) (sq : Int) : List Move :=
  if (at8 s sq).color == s.colorToMove then
    if (at8 s sq).type == PieceType.king then
      (kingKnightOffsets.take 8).flatMap (kkStep s sq) ++ castlingMoves s sq
    else if (at8 s sq).type == PieceType.knight then
      (kingKnightOffsets.drop 8).flatMap (kkStep s sq)
    else []
  else []

/-- `MoveGenerator::generateAllKingKnightMoves` (lines 121-139): iterate
the king bitboard of the side to move, then its knight bitboard. -/
def generateAllKingKnightMoves (s : BoardState) : List Move :=
  (getPiecesList (s.pieceBitboards ⟨.king, s.colorToMove⟩)).flatMap
    (fun n => generateKingKnightMoves s (Int.ofNat n)) ++
  (getPiecesList (s.pieceBitboards ⟨.knight, s.colorToMove⟩)).flatMap
    (fun n => generateKingKnightMoves s (Int.ofNat n))

/-- Modelled from the spec: `Utils::promotionPieces` (the utilities
header is not under `src/`) - promotion to Queen, Rook, Bishop and
Knight, in this order. -/
def promotionPieces : List PieceType := [.queen, .rook, .bishop, .knight]

/-- Modelled from the spec: `Utils::isOnRow` - the compact square lies
on the given row. -/
def isOnRow (sq row : Int) : Bool := Int.tdiv sq 8 == row

/-- Modelled from the spec: `Utils::getXCoord` of a padded index - the
file of the square. -/
def getXCoord (p : Int) : Int := Int.tmod p 10 - 1

/-- The `targetLine` of `MoveGenerator::addPawnMove`: row 0 for a
white mover, row 7 for a black one. -/
def pawnTargetLine (s : BoardState) (m : Move) : Int :=
  if (at10x12 s m.startIndex).color == PieceColor.white then 0 else 7

/-- `MoveGenerator::addPawnMove` (lines 213-227): a pawn move landing
on the mover's last row is fanned out into the four promotions, each a
copy of the base move with only `promotionType` changed; any other pawn
move is emitted once unchanged. -/
def addPawnMove (s : BoardState) (m : Move) : List Move :=
  if isOnRow (to8x8 m.endIndex) (pawnTargetLine s m) then
    promotionPieces.map (fun t => { m with promotionType := t })
  else [m]

/-- `MoveGenerator::generatePawnMoves` (lines 141-203): single push,
double push from the base row, the two diagonal captures, then the
en-passant comparison of `getEnPassantSquare()` against the squares
horizontally adjacent to the pawn. -/
def generatePawnMoves (s : BoardState) (sq : Int) : List Move :=
  if (at8 s sq).color == s.colorToMove then
    if (at8 s sq).type == PieceType.pawn then
      let baseLine : Int := if (at8 s sq).color == PieceColor.white then 6 else 1
      let dir12 : Int := if (at8 s sq).color == PieceColor.white then -10 else 10
      let pushes :=
        if !(isOccupied s (to10x12 (applyOffset sq dir12))) then
          addPawnMove s { startIndex := to10x12 sq, endIndex := to10x12 (applyOffset sq dir12) } ++
          (if isOnRow sq baseLine && !(isOccupied s (to10x12 (applyOffset sq (dir12 * 2)))) then
            addPawnMove s { startIndex := to10x12 sq,
                            endIndex := to10x12 (applyOffset sq (dir12 * 2)),
                            isDoublePawnMove := true,
                            enPassantFile := getXCoord (to10x12 (applyOffset sq (dir12 * 2))) }
          else [])
        else []
      let capLeft :=
        if isOnBoard8x8 sq (dir12 - 1) && isOccupied s (to10x12 (applyOffset sq (dir12 - 1))) &&
            !(isFriendly s (to10x12 (applyOffset sq (dir12 - 1)))) then
          addPawnMove s { startIndex := to10x12 sq, endIndex := to10x12 (applyOffset sq (dir12 - 1)) }
        else []
      let capRight :=
        if isOnBoard8x8 sq (dir12 + 1) && isOccupied s (to10x12 (applyOffset sq (dir12 + 1))) &&
            !(isFriendly s (to10x12 (applyOffset sq (dir12 + 1)))) then
          addPawnMove s { startIndex := to10x12 sq, endIndex := to10x12 (applyOffset sq (dir12 + 1)) }
        else []
      let enPassant :=
        if isOnBoard8x8 sq (-1) && s.enPassantSquare == to10x12 (applyOffset sq (-1)) then
          addPawnMove s { startIndex := to10x12 sq, endIndex := to10x12 (applyOffset sq (dir12 - 1)),
                          isEnPassant := true }
        else if isOnBoard8x8 sq 1 && s.enPassantSquare == to10x12 (applyOffset sq 1) then
          addPawnMove s { startIndex := to10x12 sq, endIndex := to10x12 (applyOffset sq (dir12 + 1)),
                          isEnPassant := true }
        else []
      pushes ++ capLeft ++ capRight ++ enPassant
    else []
  else []

/-- `MoveGenerator::generateAllPawnMoves` (lines 205-211): iterate the
pawn bitboard of the side to move. -/
def generateAllPawnMoves (s : BoardState) : List Move :=
  (getPiecesList (s.pieceBitboards ⟨.pawn, s.colorToMove⟩)).flatMap
    (fun n => generatePawnMoves s (Int.ofNat n))

/-- `MoveGenerator::generateAllMoves` (lines 8-16): clear the buffer,
then sliding, king/knight and pawn moves in that order. -/
def generateAllMoves (s : BoardState) : List Move :=
  generateAllSlidingMoves s ++ generateAllKingKnightMoves s ++ generateAllPawnMoves s

/-- The stateful entry point: the generator object owns the
`generatedMoves` buffer, clears it on entry, fills it and returns it
(the buffer keeps the result afterwards). -/
def generateAllMovesWithBuffer (_oldBuffer : List Move) (s : BoardState) :
    List Move × List Move :=
  let cleared : List Move := []
  let filled := cleared ++ generateAllMoves s
  (filled, filled)

/-! ## Board mutation and the undo stack

`Board.cpp` is not under `src/`; the following operations are modelled
from the spec (sections 3, 4.2 and 4.2.1): `applyMove` pushes the full
pre-move `BoardState` snapshot onto the rewind stack and then mutates
the current state following the nine-step protocol; `rewindMove` pops
the stack and restores the snapshot, failing recoverably on an empty
stack. -/

/-- Set a bit of a 64-square bitboard. -/
def bbSet (bb : Nat) (i : Nat) : Nat := bb ||| (1 <<< i)

/-- Clear a bit of a 64-square bitboard. -/
def bbClear (bb : Nat) (i : Nat) : Nat := bb &&& ((2 ^ 64 - 1) ^^^ (1 <<< i))

/-- Modelled from the spec: `Board::removePiece` - clear the mailbox
entry and the bit in the owning piece bitboard and in the union
bitboard. -/
def removePieceState (s : BoardState) (p10 : Int) : BoardState :=
  let pc := at10x12 s p10
  let i8 := (to8x8 p10).toNat
  { s with
    squares := s.squares.set p10.toNat ⟨.none, .white⟩
    pieceBitboards := fun q => if q = pc then bbClear (s.pieceBitboards q) i8 else s.pieceBitboards q
    allPieceBitboard := bbClear s.allPieceBitboard i8 }

/-- Modelled from the spec: `Board::placePiece` - write the mailbox
entry and set the bit in the owning piece bitboard and in the union
bitboard. -/
def placePieceState (s : BoardState) (p10 : Int) (pc : Piece) : BoardState :=
  let i8 := (to8x8 p10).toNat
  { s with
    squares := s.squares.set p10.toNat pc
    pieceBitboards := fun q => if q = pc then bbSet (s.pieceBitboards q) i8 else s.pieceBitboards q
    allPieceBitboard := bbSet s.allPieceBitboard i8 }

/-- Move the piece sitting on `from10` to `to10` in mailbox and
bitboards. -/
def movePieceState (s : BoardState) (from10 to10 : Int) : BoardState :=
  let pc := at10x12 s from10
  placePieceState (removePieceState s from10) to10 pc

/-- Modelled from the spec (step 7 of the applyMove protocol):
`Board::removeCastlings` - moving the king off its home square clears
both rights of its color, moving (or capturing) a rook off a corner
clears that side.  Padded home squares: e1 = 95, a1 = 91, h1 = 98,
e8 = 25, a8 = 21, h8 = 28. -/
def removeCastlingsState (s : BoardState) (moved10 : Int) : BoardState :=
  if moved10 == 95 then
    { s with canCastleLeft := fun c => if c = .white then false else s.canCastleLeft c,
             canCastleRight := fun c => if c = .white then false else s.canCastleRight c }
  else if moved10 == 91 then
    { s with canCastleLeft := fun c => if c = .white then false else s.canCastleLeft c }
  else if moved10 == 98 then
    { s with canCastleRight := fun c => if c = .white then false else s.canCastleRight c }
  else if moved10 == 25 then
    { s with canCastleLeft := fun c => if c = .black then false else s.canCastleLeft c,
             canCastleRight := fun c => if c = .black then false else s.canCastleRight c }
  else if moved10 == 21 then
    { s with canCastleLeft := fun c => if c = .black then false else s.canCastleLeft c }
  else if moved10 == 28 then
    { s with canCastleRight := fun c => if c = .black then false else s.canCastleRight c }
  else s

/-- Modelled from the spec (section 4.2.1): the state mutation of
`Board::applyMove` - capture removal (en-passant victim or target
square), piece relocation, promotion replacement, the rook half of
castling, castling-rights maintenance, en-passant bookkeeping, side
flip. -/
def applyMoveState (s : BoardState) (m : Move) : BoardState :=
  let s1 :=
    if m.isEnPassant then removePieceState s s.enPassantSquareToCapture
    else if !((at10x12 s m.endIndex).type == PieceType.none) then removePieceState s m.endIndex
    else s
  let mover := at10x12 s1 m.startIndex
  let s2 := movePieceState s1 m.startIndex m.endIndex
  let s3 :=
    if !(m.promotionType == PieceType.none) then
      placePieceState (removePieceState s2 m.endIndex) m.endIndex ⟨m.promotionType, mover.color⟩
    else s2
  let s4 :=
    if m.isCastling then
      match m.auxiliaryMove with
      | some aux => movePieceState s3 aux.startIndex aux.endIndex
      | Option.none => s3
    else s3
  let s5 := removeCastlingsState (removeCastlingsState s4 m.startIndex) m.endIndex
  let s6 :=
    if m.isDoublePawnMove then
      { s5 with enPassantSquare := (m.startIndex + m.endIndex) / 2,
                enPassantSquareToCapture := m.endIndex }
    else
      { s5 with enPassantSquare := -1, enPassantSquareToCapture := -1 }
  { s6 with colorToMove := s6.colorToMove.opposite }

/-- Modelled from the spec: `Board::applyMove` - push the pre-move
snapshot, then mutate the current state. -/
def applyMoveBoard (b : Board) (m : Move) : Board :=
  { currentState := applyMoveState b.currentState m
    rewindStack := b.currentState :: b.rewindStack }

/-- Modelled from the spec: `Board::rewindMove` - pop the stack and
restore; an empty stack is the recoverable "no move to undo". -/
def rewindMoveBoard (b : Board) : Option Board :=
  match b.rewindStack with
  | [] => Option.none
  | st :: rest => some { currentState := st, rewindStack := rest }

/-! ## Attack model

Modelled from the spec (sections 4.3.1 and 4.3.3): a square is attacked
by a color when some piece of that color reaches it with a capture
pattern - pawn capture diagonals, knight and king offsets, slider rays
blocked by the first occupied square. -/

def pawnAttackDirs : PieceColor → List Int
  | .white => [-11, -9]
  | .black => [9, 11]

def knightAttackDirs : List Int := [-19, -21, -12, 8, 21, 19, -8, 12]

/-- Walk from `pos` in direction `d`; true when `t8` is reached before
any occupied square. -/
def rayReaches (s : BoardState) (d t8 : Int) : Nat → Int → Bool
  | 0, _ => false
  | fuel + 1, pos =>
    if isOnBoard8x8 pos d then
      let pos2 := applyOffset pos d
      if pos2 == t8 then true
      else if (at8 s pos2).type == PieceType.none then rayReaches s d t8 fuel pos2
      else false
    else false

/-- The piece on `from8` attacks the square `t8`. -/
def attacksSquare (s : BoardState) (from8 t8 : Int) : Bool :=
  let p := at8 s from8
  if p.type == PieceType.pawn then
    (pawnAttackDirs p.color).any (fun d => isOnBoard8x8 from8 d && applyOffset from8 d == t8)
  else if p.type == PieceType.knight then
    knightAttackDirs.any (fun d => isOnBoard8x8 from8 d && applyOffset from8 d == t8)
  else if p.type == PieceType.king then
    slidingPieceOffsets.any (fun d => isOnBoard8x8 from8 d && applyOffset from8 d == t8)
  else if p.type == PieceType.rook then
    (slidingPieceOffsets.take 4).any (fun d => rayReaches s d t8 8 from8)
  else if p.type == PieceType.bishop then
    (slidingPieceOffsets.drop 4).any (fun d => rayReaches s d t8 8 from8)
  else if p.type == PieceType.queen then
    slidingPieceOffsets.any (fun d => rayReaches s d t8 8 from8)
  else false

/-- Some piece of color `c` attacks the compact square `t8`. -/
def isSquareAttackedBy (s : BoardState) (c : PieceColor) (t8 : Int) : Bool :=
  (List.range 64).any (fun n =>
    let p := at8 s (Int.ofNat n)
    !(p.type == PieceType.none) && !(p.type == PieceType.offBoard) &&
      p.color == c && attacksSquare s (Int.ofNat n) t8)

/-- The compact square of the king of color `c` (64 when absent). -/
def kingSquare8 (s : BoardState) (c : PieceColor) : Int :=
  Int.ofNat (((List.range 64).find? (fun n =>
    (at8 s (Int.ofNat n)).type == PieceType.king &&
    (at8 s (Int.ofNat n)).color == c)).getD 64)

/-- After playing `m` from `s`, the mover's king stands attacked by the
opponent. -/
def kingAttackedAfter (s : BoardState) (m : Move) : Bool :=
  let mover := s.colorToMove
  let s2 := applyMoveState s m
  isSquareAttackedBy s2 mover.opposite (kingSquare8 s2 mover)

/-! ## Concrete board construction -/

/-- The empty 120-entry mailbox: `None` on the playing area, the
off-board sentinel on the guard band. -/
def emptyMailbox : List Piece :=
  (List.range 120).map (fun p => if isOnBoard10x12 (Int.ofNat p) then ⟨.none, .white⟩ else offBoardPiece)

/-- Build a consistent `BoardState` from a placement list of compact
squares and pieces. -/
def mkBoard (ctm : PieceColor) (castleL castleR : PieceColor → Bool) (eps epc : Int)
    (ps : List (Nat × Piece)) : BoardState :=
  { squares := ps.foldl (fun sqs x => sqs.set (to10x12 (Int.ofNat x.1)).toNat x.2) emptyMailbox
    pieceBitboards := fun q =>
      ps.foldl (fun bb x => if x.2 = q then bbSet bb x.1 else bb) 0
    allPieceBitboard := ps.foldl (fun bb x => bbSet bb x.1) 0
    colorToMove := ctm
    canCastleLeft := castleL
    canCastleRight := castleR
    enPassantSquare := eps
    enPassantSquareToCapture := epc }

def noCastling : PieceColor → Bool := fun _ => false

/-- Compact square index from file (0..7, file a = 0) and rank
(1..8). -/
def sqOf (file rank : Nat) : Nat := file + 8 * (8 - rank)

/-! ## The debug-build piece bookkeeping of `Bitboard`
(src/Thera/include/Thera/Bitboard.hpp lines 107-145)

In debug builds `placePiece` and `removePiece` first validate the
square and maintain `occupiedSquares` / `reverseOccupiedSquares` /
`numPieces`, throwing `std::invalid_argument` on a violated
precondition; in release builds the `if constexpr` blocks vanish and
only the bit write `(*this)[square] = value` remains. -/

structure BitboardDbg where
  bits : Nat
  occupiedSquares : List Int
  reverseOccupiedSquares : List Int
  numPieces : Nat
deriving DecidableEq, Repr

/-- `Bitboard::isOccupied`: test the bit (the debug bounds check
`0 <= square <= 127` always passes for an on-board square). -/
def isOccupiedBB (bb : BitboardDbg) (sq : Nat) : Bool := bb.bits.testBit sq

/-- `Bitboard::placePiece` in a debug build (lines 107-118): throw when
the square is already occupied, otherwise record the square in the
bookkeeping arrays and set the bit. -/
def placePieceDebug (bb : BitboardDbg) (sq : Fin 64) : Except String BitboardDbg :=
  if isOccupiedBB bb sq.val then
    Except.error "Tried to place piece on already occupied square."
  else
    Except.ok
      { bits := bbSet bb.bits sq.val
        occupiedSquares := bb.occupiedSquares.set bb.numPieces (Int.ofNat sq.val)
        reverseOccupiedSquares := bb.reverseOccupiedSquares.set sq.val (Int.ofNat bb.numPieces)
        numPieces := bb.numPieces + 1 }

/-- `Bitboard::removePiece` in a debug build (lines 127-145): throw
when the square is empty or off the board, otherwise move the last
bookkeeping entry into the freed slot and clear the bit. -/
def removePieceDebug (bb : BitboardDbg) (sq : Fin 64) : Except String BitboardDbg :=
  if !(isOccupiedBB bb sq.val) then
    Except.error "Tried to remove piece from empty square."
  else if decide (64 ≤ sq.val) then
    Except.error "Tried to remove piece from outside the board."
  else
    let pieceIndex := bb.reverseOccupiedSquares.getD sq.val (-1)
    let movedSq := bb.occupiedSquares.getD (bb.numPieces - 1) (-1)
    Except.ok
      { bits := bbClear bb.bits sq.val
        occupiedSquares := bb.occupiedSquares.set pieceIndex.toNat movedSq
        reverseOccupiedSquares :=
          (bb.reverseOccupiedSquares.set movedSq.toNat pieceIndex).set sq.val (-1)
        numPieces := bb.numPieces - 1 }

/-- `Bitboard::placePiece` in a release build: the unchecked bit
write. -/
def placePieceRelease (bits : Nat) (sq : Fin 64) : Nat := bbSet bits sq.val

/-- `Bitboard::removePiece` in a release build: the unchecked bit
clear. -/
def removePieceRelease (bits : Nat) (sq : Fin 64) : Nat := bbClear bits sq.val

/-! ## Ray view of the sliding walk

The specification describes sliding generation per ray: emit a move for
each empty square in order of increasing distance, emit exactly one
capture and stop on an enemy piece, stop silently on a friendly piece
or the board edge.  `rayTo` is the full ray of squares from a square to
the board edge (at most 7 of them, spec section 4.3.4), and
`raySpecMoves` is that description of the emitted moves. -/

def rayListAux (d : Int) : Nat → Int → List Int
  | 0, _ => []
  | fuel + 1, pos =>
    if isOnBoard8x8 pos d then
      applyOffset pos d :: rayListAux d fuel (applyOffset pos d)
    else []

/-- All squares from `sq` (exclusive) to the board edge in direction
`d`, nearest first. -/
def rayTo (sq d : Int) : List Int := rayListAux d 8 sq

/-- The spec description of the moves emitted along one ray: a quiet
move for every empty square before the first occupied one, then one
capture when that occupied square holds an enemy piece. -/
def raySpecMoves (s : BoardState) (startSq : Int) (ray : List Int) : List Move :=
  let free := ray.takeWhile (fun p => (at8 s p).type == PieceType.none)
  let rest := ray.drop free.length
  free.map (fun p => mkMove startSq p) ++
    match rest with
    | [] => []
    | p :: _ =>
      if (at8 s p).color == s.colorToMove.opposite then [mkMove startSq p] else []

/-! ## Concrete positions used by the claim checks -/

/-- White king e1, black rook a2, black king a8, white to move, no
castling rights: the white king may legally go only to d1 and f1, yet
the generator also emits e1-d2, e1-e2 and e1-f2 into the rook's
rank. -/
def kingIntoCheckBoard : BoardState :=
  mkBoard .white noCastling noCastling (-1) (-1)
    [(sqOf 4 1, ⟨.king, .white⟩), (sqOf 0 2, ⟨.rook, .black⟩), (sqOf 0 8, ⟨.king, .black⟩)]

/-- White king e1 and rook h1 with the white king-side castling right,
black rook e8 giving check, black king a8, white to move. -/
def castleInCheckBoard : BoardState :=
  mkBoard .white noCastling (fun c => c == PieceColor.white) (-1) (-1)
    [(sqOf 4 1, ⟨.king, .white⟩), (sqOf 7 1, ⟨.rook, .white⟩),
     (sqOf 4 8, ⟨.rook, .black⟩), (sqOf 0 8, ⟨.king, .black⟩)]

/-- The position after black answered 1.e4 (white pawn now on e5) with
d7-d5: white pawn e5, black pawn d5, `enPassantSquare` = d6 (padded
index 44, the square the capturing pawn would move to),
`enPassantSquareToCapture` = d5 (padded index 54), white to move. -/
def enPassantBoard : BoardState :=
  mkBoard .white noCastling noCastling 44 54
    [(sqOf 4 5, ⟨.pawn, .white⟩), (sqOf 3 5, ⟨.pawn, .black⟩),
     (sqOf 7 1, ⟨.king, .white⟩), (sqOf 0 8, ⟨.king, .black⟩)]

/-- A lone white pawn on a7 about to promote (with the two kings). -/
def promotionBoard : BoardState :=
  mkBoard .white noCastling noCastling (-1) (-1)
    [(sqOf 0 7, ⟨.pawn, .white⟩), (sqOf 7 1, ⟨.king, .white⟩), (sqOf 0 8, ⟨.king, .black⟩)]

/-- The base move a7-a8 of the white pawn on `promotionBoard`. -/
def promotionBaseMove : Move := mkMove (Int.ofNat (sqOf 0 7)) (Int.ofNat (sqOf 0 8))

/-- A white rook on a1 with a friendly pawn on a3 and an enemy pawn on
c1: its rays contain an empty stretch, a friendly blocker and an enemy
blocker. -/
def rookRayBoard : BoardState :=
  mkBoard .white noCastling noCastling (-1) (-1)
    [(sqOf 0 1, ⟨.rook, .white⟩), (sqOf 0 3, ⟨.pawn, .white⟩), (sqOf 2 1, ⟨.pawn, .black⟩),
     (sqOf 7 8, ⟨.king, .white⟩), (sqOf 0 8, ⟨.king, .black⟩)]

/-! ## Theorems: bit-level lemmas -/

theorem ctz_odd {n : Nat} (h : n % 2 = 1) : ctz n = 0 := by
  have hn : n ≠ 0 := by omega
  rw [ctz]
  simp [hn, h]

theorem ctz_even {n : Nat} (hn : n ≠ 0) (h : n % 2 = 0) : ctz n = ctz (n / 2) + 1 := by
  rw [ctz]
  have h1 : ¬ n % 2 = 1 := by omega
  simp [hn, h1]

/-- The least significant set bit is set. -/
theorem testBit_ctz {n : Nat} (hn : n ≠ 0) : n.testBit (ctz n) = true := by
  induction n using Nat.strong_induction_on with
  | _ n ih =>
    by_cases h2 : n % 2 = 1
    · rw [ctz_odd h2, Nat.testBit_zero]
      simp [h2]
    · have h0 : n % 2 = 0 := by omega
      have hhalf : n / 2 ≠ 0 := by omega
      rw [ctz_even hn h0, Nat.testBit_succ]
      exact ih (n / 2) (by omega) hhalf

/-- All bits below the least significant set bit are clear. -/
theorem testBit_lt_ctz {n : Nat} (hn : n ≠ 0) : ∀ j, j < ctz n → n.testBit j = false := by
  induction n using Nat.strong_induction_on with
  | _ n ih =>
    intro j hj
    by_cases h2 : n % 2 = 1
    · rw [ctz_odd h2] at hj
      omega
    · have h0 : n % 2 = 0 := by omega
      have hhalf : n / 2 ≠ 0 := by omega
      rw [ctz_even hn h0] at hj
      match j with
      | 0 =>
        rw [Nat.testBit_zero]
        simp [h0]
      | j' + 1 =>
        rw [Nat.testBit_succ]
        exact ih (n / 2) (by omega) hhalf j' (by omega)

/-- The bits of `n - 1`: subtracting one turns the trailing zeros into
ones, clears the lowest set bit, and leaves everything above alone. -/
theorem testBit_pred {n : Nat} (hn : n ≠ 0) : ∀ j,
    (n - 1).testBit j =
      (if j < ctz n then true else if j = ctz n then false else n.testBit j) := by
  induction n using Nat.strong_induction_on with
  | _ n ih =>
    intro j
    by_cases h2 : n % 2 = 1
    · rw [ctz_odd h2]
      match j with
      | 0 =>
        have hp : (n - 1) % 2 = 0 := by omega
        rw [Nat.testBit_zero, if_neg (by omega), if_pos rfl]
        simp [hp]
      | j' + 1 =>
        rw [if_neg (by omega), if_neg (by omega), Nat.testBit_succ, Nat.testBit_succ]
        have hhalf : (n - 1) / 2 = n / 2 := by omega
        rw [hhalf]
    · have h0 : n % 2 = 0 := by omega
      have hhalf : n / 2 ≠ 0 := by omega
      rw [ctz_even hn h0]
      match j with
      | 0 =>
        have hp : (n - 1) % 2 = 1 := by omega
        rw [Nat.testBit_zero, if_pos (by omega)]
        simp [hp]
      | j' + 1 =>
        rw [Nat.testBit_succ]
        have hstep : (n - 1) / 2 = n / 2 - 1 := by omega
        rw [hstep, ih (n / 2) (by omega) hhalf j']
        rcases Nat.lt_trichotomy j' (ctz (n / 2)) with h | h | h
        · rw [if_pos h, if_pos (by omega)]
        · rw [if_neg (by omega), if_pos h, if_neg (by omega), if_pos (by omega)]
        · rw [if_neg (by omega), if_neg (by omega), if_neg (by omega), if_neg (by omega),
            Nat.testBit_succ]

/-- `x ^ (x - 1)` is the mask of the bits up to and including the
lowest set bit. -/
theorem xor_pred {n : Nat} (hn : n ≠ 0) : n ^^^ (n - 1) = 2 ^ (ctz n + 1) - 1 := by
  apply Nat.eq_of_testBit_eq
  intro j
  rw [Nat.testBit_xor, testBit_pred hn j, Nat.testBit_two_pow_sub_one]
  rcases Nat.lt_trichotomy j (ctz n) with h | h | h
  · rw [if_pos h, testBit_lt_ctz hn j h, decide_eq_true (by omega : j < ctz n + 1)]
    rfl
  · rw [if_neg (by omega), if_pos h, h, testBit_ctz hn,
      decide_eq_true (by omega : ctz n < ctz n + 1)]
    rfl
  · rw [if_neg (by omega), if_neg (by omega), Bool.xor_self,
      decide_eq_false (by omega : ¬ j < ctz n + 1)]

/-- `x & (x - 1)` clears exactly the lowest set bit. -/
theorem land_pred_testBit {n : Nat} (hn : n ≠ 0) : ∀ j,
    (n &&& (n - 1)).testBit j = (n.testBit j && !(decide (j = ctz n))) := by
  intro j
  rw [Nat.testBit_land, testBit_pred hn j]
  rcases Nat.lt_trichotomy j (ctz n) with h | h | h
  · rw [if_pos h, testBit_lt_ctz hn j h, decide_eq_false (by omega : ¬ j = ctz n)]
    rfl
  · subst h
    rw [if_neg (by omega), if_pos rfl, decide_eq_true rfl]
    simp
  · rw [if_neg (by omega), if_neg (by omega), decide_eq_false (by omega : ¬ j = ctz n),
      Bool.not_false, Bool.and_true, Bool.and_self]

theorem two_pow_ctz_le {n : Nat} (hn : n ≠ 0) : 2 ^ ctz n ≤ n := by
  by_contra hlt
  have hfalse := Nat.testBit_lt_two_pow (x := n) (i := ctz n) (by omega)
  rw [testBit_ctz hn] at hfalse
  exact Bool.noConfusion hfalse

theorem ctz_lt_64 {n : Nat} (hn : n ≠ 0) (h64 : n < 2 ^ 64) : ctz n < 64 := by
  have h1 : 2 ^ ctz n ≤ n := two_pow_ctz_le hn
  have h2 : 2 ^ ctz n < 2 ^ 64 := by omega
  exact (Nat.pow_lt_pow_iff_right (by omega : 1 < 2)).mp h2

/-- The folded table lookup recovers the index from the trailing-ones
mask, for each of the 64 possible masks. -/
theorem bsfOfMask_two_pow_sub_one : ∀ c : Fin 64, bsfOfMask (2 ^ (c.val + 1) - 1) = c.val := by
  decide

/-- `bitScanForward` returns the index of the least significant set bit
for every non-zero 64-bit input. -/
theorem bitScanForward_eq_ctz {n : Nat} (hn : n ≠ 0) (h64 : n < 2 ^ 64) :
    bitScanForward n = ctz n := by
  have hc : ctz n < 64 := ctz_lt_64 hn h64
  rw [bitScanForward, xor_pred hn]
  exact bsfOfMask_two_pow_sub_one ⟨ctz n, hc⟩

theorem getPiecesAux_zero : ∀ fuel, getPiecesAux fuel 0 = [] := by
  intro fuel
  cases fuel <;> rfl

theorem getPiecesAux_step {x : Nat} (hx : x ≠ 0) (f : Nat) :
    getPiecesAux (f + 1) x = bitScanForward (x % 2 ^ 64) :: getPiecesAux f (x &&& (x - 1)) := by
  simp [getPiecesAux, hx]

theorem land_pred_lt {x : Nat} (hx : x ≠ 0) : x &&& (x - 1) < x :=
  Nat.lt_of_le_of_lt Nat.and_le_right (Nat.sub_lt (Nat.pos_of_ne_zero hx) Nat.one_pos)

theorem mem_getPiecesAux {x : Nat} (h64 : x < 2 ^ 64) :
    ∀ fuel, x ≤ fuel → ∀ i, (i ∈ getPiecesAux fuel x ↔ x.testBit i = true) := by
  induction x using Nat.strong_induction_on with
  | _ x ih =>
    intro fuel hfuel i
    by_cases hx : x = 0
    · subst hx
      rw [getPiecesAux_zero]
      simp [Nat.zero_testBit]
    · obtain ⟨f, rfl⟩ : ∃ f, fuel = f + 1 := ⟨fuel - 1, by omega⟩
      have hlt := land_pred_lt hx
      rw [getPiecesAux_step hx, Nat.mod_eq_of_lt h64, bitScanForward_eq_ctz hx h64,
        List.mem_cons, ih (x &&& (x - 1)) hlt (by omega) f (by omega) i,
        land_pred_testBit hx i]
      constructor
      · rintro (rfl | hmem)
        · exact testBit_ctz hx
        · exact (Bool.and_eq_true_iff.mp hmem).1
      · intro hbit
        by_cases hi : i = ctz x
        · exact Or.inl hi
        · exact Or.inr (by simp [hbit, hi])

theorem sorted_getPiecesAux {x : Nat} (h64 : x < 2 ^ 64) :
    ∀ fuel, x ≤ fuel → List.Sorted (· < ·) (getPiecesAux fuel x) := by
  induction x using Nat.strong_induction_on with
  | _ x ih =>
    intro fuel hfuel
    by_cases hx : x = 0
    · subst hx
      rw [getPiecesAux_zero]
      simp
    · obtain ⟨f, rfl⟩ : ∃ f, fuel = f + 1 := ⟨fuel - 1, by omega⟩
      have hlt := land_pred_lt hx
      rw [getPiecesAux_step hx, Nat.mod_eq_of_lt h64, bitScanForward_eq_ctz hx h64,
        List.sorted_cons]
      refine ⟨?_, ih (x &&& (x - 1)) hlt (by omega) f (by omega)⟩
      intro b hb
      rw [mem_getPiecesAux (x := x &&& (x - 1)) (by omega) f (by omega) b,
        land_pred_testBit hx b] at hb
      obtain ⟨hbit, hne⟩ := Bool.and_eq_true_iff.mp hb
      have hge : ¬ b < ctz x := by
        intro hcon
        rw [testBit_lt_ctz hx b hcon] at hbit
        exact Bool.noConfusion hbit
      have hbne : b ≠ ctz x := by simpa using hne
      omega

theorem mem_getPiecesList {x : Nat} (h64 : x < 2 ^ 64) :
    ∀ i, i ∈ getPiecesList x ↔ x.testBit i = true :=
  mem_getPiecesAux h64 x (Nat.le_refl x)

theorem sorted_getPiecesList {x : Nat} (h64 : x < 2 ^ 64) :
    List.Sorted (· < ·) (getPiecesList x) :=
  sorted_getPiecesAux h64 x (Nat.le_refl x)

/-! ## Theorems: the sliding walk against its ray description -/

theorem raySpecMoves_cons_empty (s : BoardState) (q p : Int) (r : List Int)
    (h : ((at8 s p).type == PieceType.none) = true) :
    raySpecMoves s q (p :: r) = mkMove q p :: raySpecMoves s q r := by
  simp [raySpecMoves, List.takeWhile_cons, h]

theorem raySpecMoves_cons_occ (s : BoardState) (q p : Int) (r : List Int)
    (h : ((at8 s p).type == PieceType.none) = false) :
    raySpecMoves s q (p :: r) =
      (if (at8 s p).color == s.colorToMove.opposite then [mkMove q p] else []) := by
  simp [raySpecMoves, List.takeWhile_cons, h]

theorem slideLoop_eq_raySpec (s : BoardState) (q d : Int) :
    ∀ (fuel : Nat) (pos : Int),
      slideLoop s q d fuel pos = raySpecMoves s q (rayListAux d fuel pos) := by
  intro fuel
  induction fuel with
  | zero => intro pos; rfl
  | succ n ih =>
    intro pos
    by_cases hob : isOnBoard8x8 pos d
    · rw [slideLoop, rayListAux, if_pos hob, if_pos hob]
      by_cases hemp : ((at8 s (applyOffset pos d)).type == PieceType.none) = true
      · rw [if_pos hemp]
        rw [raySpecMoves_cons_empty s q _ _ hemp]
        rw [ih]
      · rw [if_neg (by simpa using hemp)]
        rw [raySpecMoves_cons_occ s q _ _ (by simpa using hemp)]
    · rw [slideLoop, rayListAux, if_neg hob, if_neg hob]
      rfl

/-! ## Claim theorems -/

/-- C1: the claim says `generateAllMoves` returns exactly the legal
moves, every returned move leaving the mover's own king unattacked.  On
`kingIntoCheckBoard` (white king e1, black rook a2) the generator emits
a move after which the white king stands attacked by the rook: the code
performs no legality filtering. -/
theorem generateAllMoves_emits_self_check_move :
    (generateAllMoves kingIntoCheckBoard).any
      (fun m => kingAttackedAfter kingIntoCheckBoard m) = true := by
  decide

/-- C2: `applyMove` followed by `rewindMove` restores the board to a
state equal in every field - mailbox, piece bitboards, union bitboard,
side to move, castling rights and both en-passant fields - because
`applyMove` pushes the full pre-move snapshot and `rewindMove` pops and
restores it. -/
theorem applyMove_rewindMove_restores (b : Board) (m : Move) :
    rewindMoveBoard (applyMoveBoard b m) = some b ∧
    ((rewindMoveBoard (applyMoveBoard b m)).map (fun b2 => b2.currentState.squares)
        = some b.currentState.squares) ∧
    ((rewindMoveBoard (applyMoveBoard b m)).map (fun b2 => b2.currentState.pieceBitboards)
        = some b.currentState.pieceBitboards) ∧
    ((rewindMoveBoard (applyMoveBoard b m)).map (fun b2 => b2.currentState.allPieceBitboard)
        = some b.currentState.allPieceBitboard) ∧
    ((rewindMoveBoard (applyMoveBoard b m)).map (fun b2 => b2.currentState.colorToMove)
        = some b.currentState.colorToMove) ∧
    ((rewindMoveBoard (applyMoveBoard b m)).map (fun b2 => b2.currentState.canCastleLeft)
        = some b.currentState.canCastleLeft) ∧
    ((rewindMoveBoard (applyMoveBoard b m)).map (fun b2 => b2.currentState.canCastleRight)
        = some b.currentState.canCastleRight) ∧
    ((rewindMoveBoard (applyMoveBoard b m)).map (fun b2 => b2.currentState.enPassantSquare)
        = some b.currentState.enPassantSquare) ∧
    ((rewindMoveBoard (applyMoveBoard b m)).map
        (fun b2 => b2.currentState.enPassantSquareToCapture)
        = some b.currentState.enPassantSquareToCapture) :=
  ⟨rfl, rfl, rfl, rfl, rfl, rfl, rfl, rfl, rfl⟩

/-- C3: the claim says a castling move is emitted only when, among
other conditions, the king is not currently in check and no square it
passes through is attacked.  On `castleInCheckBoard` the white king on
e1 is in check from the rook on e8, yet the generator emits the
castling move: the emission code checks only the castling right and the
emptiness of the squares beside the king. -/
theorem castling_emitted_while_in_check :
    isSquareAttackedBy castleInCheckBoard PieceColor.black
        (kingSquare8 castleInCheckBoard PieceColor.white) = true ∧
    (generateAllMoves castleInCheckBoard).any (fun m => m.isCastling) = true :=
  ⟨by decide, by decide⟩

/-- C4: the claim says an en-passant capture is emitted exactly when
the pawn's diagonal destination equals the board's en-passant target.
On `enPassantBoard` the white pawn e5's diagonal destination d6 equals
`enPassantSquare`, yet no en-passant move (indeed no move to d6 at all)
is generated: the code compares `getEnPassantSquare()` against the
squares horizontally adjacent to the pawn, which lie one rank below the
target. -/
theorem enPassant_target_move_not_emitted :
    to10x12 (applyOffset (Int.ofNat (sqOf 4 5)) (-11)) = enPassantBoard.enPassantSquare ∧
    (at8 enPassantBoard (Int.ofNat (sqOf 4 5))) = ⟨.pawn, .white⟩ ∧
    (generateAllMoves enPassantBoard).any (fun m => m.isEnPassant) = false ∧
    (generateAllMoves enPassantBoard).any
      (fun m => m.endIndex == enPassantBoard.enPassantSquare) = false :=
  ⟨by decide, by decide, by decide, by decide⟩

/-- C5: a pawn move landing on the mover's last row is fanned out into
exactly the four promotions Queen, Rook, Bishop, Knight, each a copy of
the base move with only the promotion field changed; any other pawn
move is emitted exactly once with promotion `None`. -/
theorem addPawnMove_promotion_fanout (s : BoardState) (m : Move)
    (hprom : m.promotionType = PieceType.none) :
    (isOnRow (to8x8 m.endIndex) (pawnTargetLine s m) = true →
      addPawnMove s m =
        [{ m with promotionType := .queen }, { m with promotionType := .rook },
         { m with promotionType := .bishop }, { m with promotionType := .knight }] ∧
      (addPawnMove s m).map Move.promotionType =
        [PieceType.queen, PieceType.rook, PieceType.bishop, PieceType.knight] ∧
      ∀ m2 ∈ addPawnMove s m, { m2 with promotionType := PieceType.none } = m)
  ∧ (isOnRow (to8x8 m.endIndex) (pawnTargetLine s m) = false →
      addPawnMove s m = [m] ∧ m.promotionType = PieceType.none) := by
  constructor
  · intro hrow
    have heq : addPawnMove s m =
        [{ m with promotionType := .queen }, { m with promotionType := .rook },
         { m with promotionType := .bishop }, { m with promotionType := .knight }] := by
      simp [addPawnMove, hrow, promotionPieces]
    refine ⟨heq, ?_, ?_⟩
    · rw [heq]
      rfl
    · intro m2 hm2
      rw [heq] at hm2
      have hm : { m with promotionType := PieceType.none } = m := by
        cases m
        simp_all
      simp only [List.mem_cons, List.mem_singleton, List.not_mem_nil, or_false] at hm2
      rcases hm2 with h | h | h | h <;> subst h <;> exact hm
  · intro hrow
    refine ⟨?_, hprom⟩
    simp [addPawnMove, hrow]

theorem addPawnMove_promotion_fanout_witness :
    promotionBaseMove.promotionType = PieceType.none ∧
    isOnRow (to8x8 promotionBaseMove.endIndex)
      (pawnTargetLine promotionBoard promotionBaseMove) = true ∧
    addPawnMove promotionBoard promotionBaseMove =
      [{ promotionBaseMove with promotionType := .queen },
       { promotionBaseMove with promotionType := .rook },
       { promotionBaseMove with promotionType := .bishop },
       { promotionBaseMove with promotionType := .knight }] :=
  ⟨by decide, by decide,
    ((addPawnMove_promotion_fanout promotionBoard promotionBaseMove (by decide)).1
      (by decide)).1⟩

/-- C6: for a rook, bishop or queen of the side to move, the sliding
walk equals its ray description: along every ray of the piece (rook:
directions 0-3, bishop: 4-7, queen: all eight) it emits a quiet move
for each empty square in order of increasing distance, then exactly one
capture when the first occupied square holds an enemy piece, and
nothing from a friendly blocker or the board edge on. -/
theorem generateSlidingMoves_ray_spec (s : BoardState) (sq : Int)
    (hcol : (at8 s sq).color = s.colorToMove) :
    ((at8 s sq).type = PieceType.rook →
      generateSlidingMoves s sq =
        (slidingPieceOffsets.take 4).flatMap (fun d => raySpecMoves s sq (rayTo sq d)))
  ∧ ((at8 s sq).type = PieceType.bishop →
      generateSlidingMoves s sq =
        (slidingPieceOffsets.drop 4).flatMap (fun d => raySpecMoves s sq (rayTo sq d)))
  ∧ ((at8 s sq).type = PieceType.queen →
      generateSlidingMoves s sq =
        slidingPieceOffsets.flatMap (fun d => raySpecMoves s sq (rayTo sq d))) := by
  have hfun : (fun d => slideLoop s sq d 8 sq) = (fun d => raySpecMoves s sq (rayTo sq d)) :=
    funext (fun d => slideLoop_eq_raySpec s sq d 8 sq)
  refine ⟨?_, ?_, ?_⟩ <;> intro ht <;> simp [generateSlidingMoves, hcol, ht, rayTo, hfun]

theorem generateSlidingMoves_ray_spec_witness :
    (at8 rookRayBoard 56).color = rookRayBoard.colorToMove ∧
    (at8 rookRayBoard 56).type = PieceType.rook ∧
    generateSlidingMoves rookRayBoard 56 =
      (slidingPieceOffsets.take 4).flatMap
        (fun d => raySpecMoves rookRayBoard 56 (rayTo 56 d)) :=
  ⟨by decide, by decide,
    (generateSlidingMoves_ray_spec rookRayBoard 56 (by decide)).1 (by decide)⟩

/-- C7: for every non-zero 64-bit bitboard, `getPieces` lists exactly
the set square indices in strictly ascending order, `bitScanForward`
returns the index of the least significant set bit (the set bit below
which every bit is clear), and `x &= x-1` clears exactly that bit. -/
theorem getPieces_bitScanForward_spec (x : Nat) (h0 : 0 < x) (h64 : x < 2 ^ 64) :
    List.Sorted (· < ·) (getPiecesList x)
  ∧ (∀ i, i ∈ getPiecesList x ↔ x.testBit i = true)
  ∧ x.testBit (bitScanForward x) = true
  ∧ (∀ j, j < bitScanForward x → x.testBit j = false)
  ∧ (∀ j, (x &&& (x - 1)).testBit j = (x.testBit j && !(decide (j = bitScanForward x)))) := by
  have hx : x ≠ 0 := by omega
  have hb := bitScanForward_eq_ctz hx h64
  refine ⟨sorted_getPiecesList h64, mem_getPiecesList h64, ?_, ?_, ?_⟩
  · rw [hb]
    exact testBit_ctz hx
  · rw [hb]
    exact testBit_lt_ctz hx
  · rw [hb]
    exact land_pred_testBit hx

theorem getPieces_bitScanForward_spec_witness :
    0 < 40 ∧ 40 < 2 ^ 64 ∧
      (List.Sorted (· < ·) (getPiecesList 40)
       ∧ (∀ i, i ∈ getPiecesList 40 ↔ (40 : Nat).testBit i = true)
       ∧ (40 : Nat).testBit (bitScanForward 40) = true
       ∧ (∀ j, j < bitScanForward 40 → (40 : Nat).testBit j = false)
       ∧ (∀ j, ((40 : Nat) &&& (40 - 1)).testBit j
            = ((40 : Nat).testBit j && !(decide (j = bitScanForward 40))))) :=
  ⟨by decide, by decide, getPieces_bitScanForward_spec 40 (by decide) (by decide)⟩

set_option maxRecDepth 4000000 in
set_option maxHeartbeats 4000000 in
/-- C8: for all square pairs, `obstructedLUT[a][b]` is the bitboard of
the squares strictly between `a` and `b` when they share a rank, file,
diagonal or anti-diagonal, and the empty bitboard otherwise (also when
`a = b`). -/
theorem obstructedLUT_squares_between :
    ∀ a b : Fin 64, obstructedLUT a.val b.val = squaresBetween a.val b.val := by
  decide

/-- C9: in a debug build `placePiece` fails exactly on an occupied
square and `removePiece` fails exactly on an empty one, so under the
respective preconditions the error branches are unreachable; the
release-build versions are the unchecked bit writes. -/
theorem placePiece_removePiece_debug_checks (bb : BitboardDbg) (sq : Fin 64) :
    ((placePieceDebug bb sq
        = Except.error "Tried to place piece on already occupied square.")
      ↔ bb.bits.testBit sq.val = true)
  ∧ ((placePieceDebug bb sq).isOk = true ↔ bb.bits.testBit sq.val = false)
  ∧ ((removePieceDebug bb sq = Except.error "Tried to remove piece from empty square.")
      ↔ bb.bits.testBit sq.val = false)
  ∧ ((removePieceDebug bb sq).isOk = true ↔ bb.bits.testBit sq.val = true)
  ∧ placePieceRelease bb.bits sq = bbSet bb.bits sq.val
  ∧ removePieceRelease bb.bits sq = bbClear bb.bits sq.val := by
  have hlt : ¬ (64 ≤ sq.val) := by omega
  by_cases hocc : bb.bits.testBit sq.val = true
  · refine ⟨?_, ?_, ?_, ?_, rfl, rfl⟩ <;>
      simp [placePieceDebug, removePieceDebug, isOccupiedBB, hocc, hlt,
        Except.isOk, Except.toBool]
  · have hocc2 : bb.bits.testBit sq.val = false := by simpa using hocc
    refine ⟨?_, ?_, ?_, ?_, rfl, rfl⟩ <;>
      simp [placePieceDebug, removePieceDebug, isOccupiedBB, hocc2,
        Except.isOk, Except.toBool]

/-- C10: `generateAllMoves` clears its internal buffer on entry, so its
output depends only on the board: a call starting from any buffer
content - in particular the buffer left behind by a previous call on
the same board - returns the same move list. -/
theorem generateAllMoves_no_state_accumulation (s : BoardState) (buf1 buf2 : List Move) :
    (generateAllMovesWithBuffer buf1 s).1 = (generateAllMovesWithBuffer buf2 s).1 ∧
    (generateAllMovesWithBuffer ((generateAllMovesWithBuffer buf1 s).2) s).1 =
      (generateAllMovesWithBuffer buf1 s).1 :=
  ⟨rfl, rfl⟩


end ChessBot
